import Mathlib

/-!
Shallow embedding of `scripts/analyze-audio-logs.py` (class `AudioLogAnalyzer`).

A log line is modelled as a `List Char` (the text of the line, without the
trailing newline).  Python's case-insensitive substring tests
(`'kw' in line.lower()`) are modelled by `containsSub` over the
`Char.toLower`-mapped line; the keywords involved are all ASCII, so
`Char.toLower` agrees with Python's `str.lower` on every character that can
influence a match.  `str.strip()` is modelled by `strip` using
`Char.isWhitespace`.  The regex `\d{2}:\d{2}:\d{2}\.\d{3}` is a fixed-length
pattern, so `re.search` is modelled by trying the pattern at each suffix,
leftmost first.

The analyzer's mutable lists (`errors`, `events`, `warnings`, `buffer_stats`,
`memory_readings`) become an explicit `AnalyzerState` threaded through
`parse_line` / `parse_log`.  Python's stable `list.sort` and
`Counter.most_common` (a stable sort by count, descending, over items in
first-insertion order) are modelled with `List.mergeSort`, which is a stable
merge sort.
-/

/-- Boolean substring test: Python's `kw in l`. -/
def containsSub (kw : List Char) : List Char → Bool
  | [] => kw.isEmpty
  | c :: rest => kw.isPrefixOf (c :: rest) || containsSub kw rest

/-- Model of Python `str.lower()` (the keywords matched are all ASCII). -/
def lowerLine (l : List Char) : List Char := l.map Char.toLower

/-- Model of Python `str.strip()`: drop whitespace from both ends. -/
def strip (l : List Char) : List Char :=
  ((l.dropWhile Char.isWhitespace).reverse.dropWhile Char.isWhitespace).reverse

/-- Try to match the regex `\d{2}:\d{2}:\d{2}\.\d{3}` at the start of `l`. -/
def matchTsAt (l : List Char) : Option (List Char) :=
  match l with
  | a :: b :: c :: d :: e :: f :: g :: h :: i :: j :: k :: m :: _ =>
    if a.isDigit ∧ b.isDigit ∧ c = ':' ∧ d.isDigit ∧ e.isDigit ∧ f = ':' ∧
       g.isDigit ∧ h.isDigit ∧ i = '.' ∧ j.isDigit ∧ k.isDigit ∧ m.isDigit then
      some [a, b, c, d, e, f, g, h, i, j, k, m]
    else none
  | _ => none

/-- Model of `re.search(r'(\d{2}:\d{2}:\d{2}\.\d{3})', line)`: first (leftmost)
match of the fixed-length timestamp pattern, or `none`. -/
def findTimestamp : List Char → Option (List Char)
  | [] => none
  | c :: rest =>
    match matchTsAt (c :: rest) with
    | some ts => some ts
    | none => findTimestamp rest

def kwError : List Char := "error".toList
def kwFail : List Char := "fail".toList
def kwOverflow : List Char := "overflow".toList
def kwUnderrun : List Char := "underrun".toList
def kwWarning : List Char := "warning".toList
def kwWarn : List Char := "warn".toList
def kwBufferHealth : List Char := "buffer health".toList
def kwMemory : List Char := "memory".toList
def kwKb : List Char := "kb".toList
def kwMb : List Char := "mb".toList
def kwMediacodec : List Char := "mediacodec".toList
def kwAudiorecord : List Char := "audiorecord".toList
def kwBuffer : List Char := "buffer".toList
def kwEncoder : List Char := "encoder".toList

/-- Error subtypes returned by `AudioLogAnalyzer._classify_error`. -/
inductive ErrorType
  | MediaCodec
  | AudioRecord
  | Buffer
  | Encoder
  | Unknown
  deriving DecidableEq

/-- Buffer-event subtypes (`'overflow'` / `'underrun'` strings in the source). -/
inductive BufferEventType
  | overflow
  | underrun
  deriving DecidableEq

/-- An entry of `self.errors`. -/
structure ErrorEvent where
  line : Nat
  timestamp : Option (List Char)
  message : List Char
  type : ErrorType
  deriving DecidableEq

/-- An entry of `self.events` (buffer overflow/underrun events). -/
structure BufferEvent where
  line : Nat
  timestamp : Option (List Char)
  type : BufferEventType
  message : List Char
  deriving DecidableEq

/-- An entry of `self.warnings`, `self.buffer_stats` or `self.memory_readings`:
these three lists store records with the same fields. -/
structure SimpleEvent where
  line : Nat
  timestamp : Option (List Char)
  message : List Char
  deriving DecidableEq

/-- The accumulator lists of an `AudioLogAnalyzer` instance. -/
structure AnalyzerState where
  events : List BufferEvent
  errors : List ErrorEvent
  warnings : List SimpleEvent
  buffer_stats : List SimpleEvent
  memory_readings : List SimpleEvent
  deriving DecidableEq

/-- The freshly constructed analyzer: all lists empty. -/
def initState : AnalyzerState :=
  { events := [], errors := [], warnings := [], buffer_stats := [],
    memory_readings := [] }

/-- Model of `AudioLogAnalyzer._classify_error`. -/
def classify_error (line : List Char) : ErrorType :=
  let line_lower := lowerLine line
  if containsSub kwMediacodec line_lower then ErrorType.MediaCodec
  else if containsSub kwAudiorecord line_lower then ErrorType.AudioRecord
  else if containsSub kwBuffer line_lower then ErrorType.Buffer
  else if containsSub kwEncoder line_lower then ErrorType.Encoder
  else ErrorType.Unknown

/-- Model of `AudioLogAnalyzer._parse_line` on an already stripped line:
an empty line returns the state unchanged; otherwise each of the five
category checks fires independently and appends one record. -/
def parse_line (st : AnalyzerState) (line : List Char) (line_num : Nat) :
    AnalyzerState :=
  if line = [] then st
  else
    let timestamp := findTimestamp line
    let line_lower := lowerLine line
    let st1 :=
      if containsSub kwError line_lower || containsSub kwFail line_lower then
        { st with errors := st.errors ++
            [{ line := line_num, timestamp := timestamp, message := line,
               type := classify_error line }] }
      else st
    let st2 :=
      if containsSub kwOverflow line_lower || containsSub kwUnderrun line_lower then
        { st1 with events := st1.events ++
            [{ line := line_num, timestamp := timestamp,
               type := if containsSub kwOverflow line_lower then
                   BufferEventType.overflow
                 else BufferEventType.underrun,
               message := line }] }
      else st1
    let st3 :=
      if containsSub kwWarning line_lower || containsSub kwWarn line_lower then
        { st2 with warnings := st2.warnings ++
            [{ line := line_num, timestamp := timestamp, message := line }] }
      else st2
    let st4 :=
      if containsSub kwBufferHealth line_lower then
        { st3 with buffer_stats := st3.buffer_stats ++
            [{ line := line_num, timestamp := timestamp, message := line }] }
      else st3
    let st5 :=
      if containsSub kwMemory line_lower &&
         (containsSub kwKb line_lower || containsSub kwMb line_lower) then
        { st4 with memory_readings := st4.memory_readings ++
            [{ line := line_num, timestamp := timestamp, message := line }] }
      else st4
    st5

/-- Model of the loop in `AudioLogAnalyzer.parse_log`, started at line
number `n`: each raw line is stripped and fed to `parse_line` with its
1-based index. -/
def parse_log_from (st : AnalyzerState) (lines : List (List Char)) (n : Nat) :
    AnalyzerState :=
  match lines with
  | [] => st
  | l :: rest => parse_log_from (parse_line st (strip l) n) rest (n + 1)

/-- Model of `AudioLogAnalyzer.parse_log` on the file's list of lines. -/
def parse_log (lines : List (List Char)) : AnalyzerState :=
  parse_log_from initState lines 1

/-- Number of `'overflow'` buffer events (`sum(1 for e in self.events if
e['type'] == 'overflow')`). -/
def overflow_count (st : AnalyzerState) : Nat :=
  st.events.countP (fun e => decide (e.type = BufferEventType.overflow))

/-- Number of `'underrun'` buffer events. -/
def underrun_count (st : AnalyzerState) : Nat :=
  st.events.countP (fun e => decide (e.type = BufferEventType.underrun))

/-- Number of errors classified `'MediaCodec'`. -/
def mediacodec_count (st : AnalyzerState) : Nat :=
  st.errors.countP (fun e => decide (e.type = ErrorType.MediaCodec))

/-- Number of errors classified `'AudioRecord'`. -/
def audiorecord_count (st : AnalyzerState) : Nat :=
  st.errors.countP (fun e => decide (e.type = ErrorType.AudioRecord))

/-- The failure-reason strings built by `_print_pass_fail`, as structured
values carrying the interpolated count. -/
inductive FailReason
  | errorsDetected (n : Nat)
  | bufferOverflows (n : Nat)
  | bufferUnderruns (n : Nat)
  | mediaCodecErrors (n : Nat)
  deriving DecidableEq

/-- The `failures` list accumulated by `_print_pass_fail`, in source order:
errors, overflows, underruns, MediaCodec errors. -/
def pass_fail_failures (st : AnalyzerState) : List FailReason :=
  (if 0 < st.errors.length then
      [FailReason.errorsDetected st.errors.length] else []) ++
  (if 0 < overflow_count st then
      [FailReason.bufferOverflows (overflow_count st)] else []) ++
  (if 0 < underrun_count st then
      [FailReason.bufferUnderruns (underrun_count st)] else []) ++
  (if 0 < mediacodec_count st then
      [FailReason.mediaCodecErrors (mediacodec_count st)] else [])

/-- The printed verdict. -/
inductive Verdict
  | Pass
  | Fail
  deriving DecidableEq

/-- Main verdict of `_print_pass_fail`: FAIL when the `failures` list is
non-empty, PASS otherwise. -/
def pass_fail_verdict (st : AnalyzerState) : Verdict :=
  if pass_fail_failures st = [] then Verdict.Pass else Verdict.Fail

/-- Simplified verdict written by `save_summary`: PASS iff
`len(self.errors) == 0 and len(self.events) == 0`. -/
def summary_verdict (st : AnalyzerState) : Verdict :=
  if st.errors.length = 0 ∧ st.events.length = 0 then Verdict.Pass
  else Verdict.Fail

/-- The critical-issue strings built by `_print_critical_issues`, as
structured values carrying the interpolated count. -/
inductive CriticalIssue
  | mediaCodecErrors (n : Nat)
  | bufferOverflows (n : Nat)
  | bufferUnderruns (n : Nat)
  | audioRecordFailures (n : Nat)
  deriving DecidableEq

/-- The `critical` list accumulated by `_print_critical_issues`, in source
order: MediaCodec errors, overflows, underruns, AudioRecord failures.  The
"no critical issues" branch is taken exactly when this list is empty. -/
def critical_issues (st : AnalyzerState) : List CriticalIssue :=
  (if 0 < mediacodec_count st then
      [CriticalIssue.mediaCodecErrors (mediacodec_count st)] else []) ++
  (if 0 < overflow_count st then
      [CriticalIssue.bufferOverflows (overflow_count st)] else []) ++
  (if 0 < underrun_count st then
      [CriticalIssue.bufferUnderruns (underrun_count st)] else []) ++
  (if 0 < audiorecord_count st then
      [CriticalIssue.audioRecordFailures (audiorecord_count st)] else [])

/-- Keys of `Counter(e['type'] for e in self.errors)` in insertion order,
i.e. in order of first occurrence. -/
def counterKeys (l : List ErrorType) : List ErrorType :=
  l.foldl (fun acc t => if t ∈ acc then acc else acc ++ [t]) []

/-- The `Counter`'s `(key, count)` items in insertion order. -/
def counter_items (errors : List ErrorEvent) : List (ErrorType × Nat) :=
  (counterKeys (errors.map (fun e => e.type))).map
    (fun t => (t, errors.countP (fun e => decide (e.type = t))))

/-- Model of `Counter.most_common()`: a stable sort of the items by count,
descending (CPython: `sorted(items, key=itemgetter(1), reverse=True)` with a
stable sort; `List.mergeSort` is stable). -/
def most_common (errors : List ErrorEvent) : List (ErrorType × Nat) :=
  (counter_items errors).mergeSort (fun a b => decide (b.2 ≤ a.2))

/-- Message of the first error of type `t` in file order
(`next(e for e in self.errors if e['type'] == error_type)`). -/
def first_occurrence_message (errors : List ErrorEvent) (t : ErrorType) :
    List Char :=
  match errors.find? (fun e => decide (e.type = t)) with
  | some e => e.message
  | none => []

/-- The error-breakdown section: one entry per subtype, with its count and
the message of its first occurrence. -/
def error_breakdown (errors : List ErrorEvent) :
    List (ErrorType × Nat × List Char) :=
  (most_common errors).map
    (fun p => (p.1, p.2, first_occurrence_message errors p.1))

/-- Category tag of a timeline entry: `'ERROR'` with its error subtype, or
`'BUFFER'` with its buffer-event subtype. -/
inductive TimelineTag
  | ERROR (sub : ErrorType)
  | BUFFER (sub : BufferEventType)
  deriving DecidableEq

/-- Whether a tag is the `'ERROR'` category. -/
def TimelineTag.isERROR : TimelineTag → Bool
  | .ERROR _ => true
  | .BUFFER _ => false

/-- Whether a tag is the `'BUFFER'` category. -/
def TimelineTag.isBUFFER : TimelineTag → Bool
  | .ERROR _ => false
  | .BUFFER _ => true

/-- An entry of the `all_events` list built by `_print_timeline`. -/
structure TimelineEntry where
  timestamp : Option (List Char)
  line : Nat
  tag : TimelineTag
  message : List Char
  deriving DecidableEq

/-- The timeline entry built from an error record. -/
def errEntry (e : ErrorEvent) : TimelineEntry :=
  { timestamp := e.timestamp, line := e.line,
    tag := TimelineTag.ERROR e.type, message := e.message }

/-- The timeline entry built from a buffer-event record. -/
def evtEntry (e : BufferEvent) : TimelineEntry :=
  { timestamp := e.timestamp, line := e.line,
    tag := TimelineTag.BUFFER e.type, message := e.message }

/-- The `all_events` list before sorting: the first 10 errors, then the
first 10 buffer events. -/
def timeline_pre (st : AnalyzerState) : List TimelineEntry :=
  (st.errors.take 10).map errEntry ++ (st.events.take 10).map evtEntry

/-- The timeline after `all_events.sort(key=lambda x: x['line'])`: Python's
sort is stable, modelled by the stable `List.mergeSort`. -/
def timeline (st : AnalyzerState) : List TimelineEntry :=
  (timeline_pre st).mergeSort (fun a b => decide (a.line ≤ b.line))

/-- The timeline entries actually printed (`all_events[:15]`). -/
def timeline_printed (st : AnalyzerState) : List TimelineEntry :=
  (timeline st).take 15

/-- The "... and N more events" count, reported only when more than 15
entries exist. -/
def timeline_more (st : AnalyzerState) : Option Nat :=
  if 15 < (timeline st).length then some ((timeline st).length - 15)
  else none

/-- Condition under which `parse_line` appends an Error record. -/
def errCond (l : List Char) : Bool :=
  containsSub kwError (lowerLine l) || containsSub kwFail (lowerLine l)

/-- Condition under which `parse_line` appends a BufferEvent record. -/
def evtCond (l : List Char) : Bool :=
  containsSub kwOverflow (lowerLine l) || containsSub kwUnderrun (lowerLine l)

/-- Condition under which `parse_line` appends a Warning record. -/
def warnCond (l : List Char) : Bool :=
  containsSub kwWarning (lowerLine l) || containsSub kwWarn (lowerLine l)

/-- Condition under which `parse_line` appends a buffer-health record. -/
def healthCond (l : List Char) : Bool :=
  containsSub kwBufferHealth (lowerLine l)

/-- Condition under which `parse_line` appends a memory-reading record. -/
def memCond (l : List Char) : Bool :=
  containsSub kwMemory (lowerLine l) &&
    (containsSub kwKb (lowerLine l) || containsSub kwMb (lowerLine l))

/-- The Error record appended for line `l` at line number `n`. -/
def errMk (n : Nat) (l : List Char) : ErrorEvent :=
  { line := n, timestamp := findTimestamp l, message := l,
    type := classify_error l }

/-- The BufferEvent record appended for line `l` at line number `n`. -/
def evtMk (n : Nat) (l : List Char) : BufferEvent :=
  { line := n, timestamp := findTimestamp l,
    type := if containsSub kwOverflow (lowerLine l) then
        BufferEventType.overflow
      else BufferEventType.underrun,
    message := l }

/-- The record appended to the warnings / buffer-stats / memory lists. -/
def simpleMk (n : Nat) (l : List Char) : SimpleEvent :=
  { line := n, timestamp := findTimestamp l, message := l }

/-- Full characterization of one `parse_line` step: each category list grows
by exactly one record when the line is non-empty and its condition fires. -/
theorem parse_line_eq (st : AnalyzerState) (l : List Char) (n : Nat) :
    parse_line st l n =
      { events := st.events ++
          (if l ≠ [] ∧ evtCond l = true then [evtMk n l] else []),
        errors := st.errors ++
          (if l ≠ [] ∧ errCond l = true then [errMk n l] else []),
        warnings := st.warnings ++
          (if l ≠ [] ∧ warnCond l = true then [simpleMk n l] else []),
        buffer_stats := st.buffer_stats ++
          (if l ≠ [] ∧ healthCond l = true then [simpleMk n l] else []),
        memory_readings := st.memory_readings ++
          (if l ≠ [] ∧ memCond l = true then [simpleMk n l] else []) } := by
  by_cases h0 : l = []
  · simp [parse_line, h0]
  · simp only [parse_line, if_neg h0, errCond, evtCond, warnCond, healthCond,
      memCond, errMk, evtMk, simpleMk, ne_eq, h0, not_false_iff, true_and]
    split_ifs <;> simp_all

/-- The records one category accumulates over a list of raw lines, starting
at line number `n`: the line is stripped, and a record is produced when the
stripped line is non-empty and the category condition fires. -/
def collectC {ε : Type} (cond : List Char → Bool) (mk : Nat → List Char → ε) :
    Nat → List (List Char) → List ε
  | _, [] => []
  | n, l :: rest =>
    (if strip l ≠ [] ∧ cond (strip l) = true then [mk n (strip l)] else []) ++
      collectC cond mk (n + 1) rest

/-- Closed form of the parse loop: each category list is the initial list
followed by that category's collected records. -/
theorem parse_log_from_eq :
    ∀ (lines : List (List Char)) (st : AnalyzerState) (n : Nat),
    parse_log_from st lines n =
      { events := st.events ++ collectC evtCond evtMk n lines,
        errors := st.errors ++ collectC errCond errMk n lines,
        warnings := st.warnings ++ collectC warnCond simpleMk n lines,
        buffer_stats := st.buffer_stats ++ collectC healthCond simpleMk n lines,
        memory_readings :=
          st.memory_readings ++ collectC memCond simpleMk n lines } := by
  intro lines
  induction lines with
  | nil => intro st n; simp [parse_log_from, collectC]
  | cons l rest ih =>
    intro st n
    rw [parse_log_from, ih, parse_line_eq]
    simp [collectC, List.append_assoc]

/-- Closed form of `parse_log`. -/
theorem parse_log_eq (lines : List (List Char)) :
    parse_log lines =
      { events := collectC evtCond evtMk 1 lines,
        errors := collectC errCond errMk 1 lines,
        warnings := collectC warnCond simpleMk 1 lines,
        buffer_stats := collectC healthCond simpleMk 1 lines,
        memory_readings := collectC memCond simpleMk 1 lines } := by
  rw [parse_log, parse_log_from_eq]
  rfl

/-- Every collected record comes from the stripped text of the line at its
0-based index `i`, carries line number `n + i`, and that stripped line is
non-empty and satisfies the category condition. -/
theorem collectC_mem {ε : Type} {cond : List Char → Bool}
    {mk : Nat → List Char → ε} {n : Nat} {lines : List (List Char)} {e : ε}
    (he : e ∈ collectC cond mk n lines) :
    ∃ i, ∃ hi : i < lines.length,
      e = mk (n + i) (strip (lines.get ⟨i, hi⟩)) ∧
        strip (lines.get ⟨i, hi⟩) ≠ [] ∧
        cond (strip (lines.get ⟨i, hi⟩)) = true := by
  induction lines generalizing n with
  | nil => simp [collectC] at he
  | cons l rest ih =>
    rw [collectC] at he
    rcases List.mem_append.mp he with h | h
    · by_cases hg : strip l ≠ [] ∧ cond (strip l) = true
      · rw [if_pos hg] at h
        simp only [List.mem_singleton] at h
        exact ⟨0, by simp, by simpa using h, hg.1, hg.2⟩
      · rw [if_neg hg] at h
        simp at h
    · obtain ⟨i, hi, h1, h2, h3⟩ := ih h
      refine ⟨i + 1, by simpa using hi, ?_, ?_, ?_⟩
      · simpa [Nat.add_assoc, Nat.add_comm 1 i] using h1
      · simpa using h2
      · simpa using h3

/-- Line numbers of collected records are strictly increasing and bounded
below by the starting line number. -/
theorem collectC_pairwise {ε : Type} (lineOf : ε → Nat)
    {cond : List Char → Bool} {mk : Nat → List Char → ε}
    (hline : ∀ n l, lineOf (mk n l) = n) :
    ∀ (n : Nat) (lines : List (List Char)),
    (collectC cond mk n lines).Pairwise (fun a b => lineOf a < lineOf b) ∧
      ∀ e ∈ collectC cond mk n lines, n ≤ lineOf e := by
  intro n lines
  induction lines generalizing n with
  | nil => simp [collectC]
  | cons l rest ih =>
    rw [collectC]
    obtain ⟨ihp, ihb⟩ := ih (n + 1)
    constructor
    · rw [List.pairwise_append]
      refine ⟨?_, ihp, ?_⟩
      · split <;> simp
      · intro a ha b hb
        have hb' := ihb b hb
        have ha' : lineOf a = n := by
          revert ha; split <;> intro ha
          · simp only [List.mem_singleton] at ha; rw [ha, hline]
          · simp at ha
        omega
    · intro e he
      rcases List.mem_append.mp he with h | h
      · revert h; split <;> intro h
        · simp only [List.mem_singleton] at h; rw [h, hline]
        · simp at h
      · have := ihb e h; omega

/-- When no stripped line satisfies the category condition, nothing is
collected. -/
theorem collectC_nil {ε : Type} {cond : List Char → Bool}
    {mk : Nat → List Char → ε} {lines : List (List Char)}
    (h : ∀ l ∈ lines, cond (strip l) = false) :
    ∀ n, collectC cond mk n lines = [] := by
  induction lines with
  | nil => intro n; rfl
  | cons l rest ih =>
    intro n
    rw [collectC]
    have h1 := h l (by simp)
    have h2 : ∀ l ∈ rest, cond (strip l) = false := fun l hl => h l (by simp [hl])
    rw [ih h2]
    simp [h1]

/-- In a duplicate-free list, two elements cannot each precede the other. -/
theorem not_pair_sublist_both {α : Type} {l : List α} (hn : l.Nodup)
    {a b : α} (h₁ : [a, b].Sublist l) (h₂ : [b, a].Sublist l) : False := by
  induction l with
  | nil => simp at h₁
  | cons x t ih =>
    obtain ⟨hx, ht⟩ := List.nodup_cons.mp hn
    cases h₁ with
    | cons _ h₁' =>
      cases h₂ with
      | cons _ h₂' => exact ih ht h₁' h₂'
      | cons₂ _ h₂' =>
        exact hx (h₁'.subset (by simp))
    | cons₂ _ h₁' =>
      cases h₂ with
      | cons _ h₂' =>
        exact hx (h₂'.subset (by simp))
      | cons₂ _ h₂' =>
        exact hx (h₁'.subset (by simp))

/-- In a list that is pairwise ordered by `R`, an element `y` that is
`R`-below a distinct member `x` occurs before it, as a pair sublist. -/
theorem pair_sublist_of_pairwise {α : Type} {R : α → α → Prop} {l : List α}
    (hp : l.Pairwise R) {x y : α} (hx : x ∈ l) (hy : y ∈ l) (hyx : R y x)
    (hxy : ¬ R x y) : [y, x].Sublist l := by
  induction l with
  | nil => simp at hx
  | cons z t ih =>
    obtain ⟨hz, hp'⟩ := List.pairwise_cons.mp hp
    by_cases hyz : y = z
    · subst hyz
      have hxt : x ∈ t := by
        rcases List.mem_cons.mp hx with h | h
        · exact absurd (h ▸ hyx) hxy
        · exact h
      exact (List.singleton_sublist.mpr hxt).cons₂ y
    · have hyt : y ∈ t := by
        rcases List.mem_cons.mp hy with h | h
        · exact absurd h hyz
        · exact h
      by_cases hxz : x = z
      · subst hxz
        exact absurd (hz y hyt) hxy
      · have hxt : x ∈ t := by
          rcases List.mem_cons.mp hx with h | h
          · exact absurd h hxz
          · exact h
        exact (ih hp' hxt hyt).cons z

/-- Index of the first occurrence of `t` in a list of error types. -/
def fidx (p : List ErrorType) (t : ErrorType) : Nat :=
  p.findIdx (fun z => decide (z = t))

/-- A present key's first-occurrence index is within bounds. -/
theorem fidx_lt_of_mem {p : List ErrorType} {t : ErrorType} (h : t ∈ p) :
    fidx p t < p.length := by
  rw [fidx, List.findIdx_lt_length]
  exact ⟨t, h, by simp⟩

/-- The first-occurrence index of a present key is unchanged by appending. -/
theorem fidx_append_left {p : List ErrorType} {t : ErrorType} (h : t ∈ p)
    (q : List ErrorType) : fidx (p ++ q) t = fidx p t := by
  have h' : List.findIdx (fun z => decide (z = t)) p < p.length :=
    fidx_lt_of_mem h
  rw [fidx, List.findIdx_append, if_pos h']
  rfl

/-- Appending a fresh key puts its first occurrence at the end. -/
theorem fidx_append_self {p : List ErrorType} {t : ErrorType} (h : t ∉ p) :
    fidx (p ++ [t]) t = p.length := by
  rw [fidx, List.findIdx_append]
  have hnot : ¬ List.findIdx (fun z => decide (z = t)) p < p.length := by
    rw [List.findIdx_lt_length]
    rintro ⟨x, hx, hx'⟩
    exact h ((by simpa using hx') ▸ hx)
  rw [if_neg hnot]
  simp [List.findIdx_cons]

/-- Invariant of the `Counter`-key fold: starting from an accumulator that
holds exactly the keys of the already-processed prefix `p`, in strictly
increasing first-occurrence order, the fold over `l` yields the keys of
`p ++ l` in strictly increasing first-occurrence order. -/
theorem counterKeys_aux :
    ∀ (l acc p : List ErrorType),
    (∀ x, x ∈ acc ↔ x ∈ p) →
    acc.Pairwise (fun a b => fidx p a < fidx p b) →
    (∀ x, x ∈ List.foldl
        (fun acc t => if t ∈ acc then acc else acc ++ [t]) acc l ↔
        x ∈ p ++ l) ∧
    (List.foldl (fun acc t => if t ∈ acc then acc else acc ++ [t])
        acc l).Pairwise
      (fun a b => fidx (p ++ l) a < fidx (p ++ l) b) := by
  intro l
  induction l with
  | nil =>
    intro acc p hmem hpw
    constructor
    · simpa using hmem
    · simpa using hpw
  | cons t l' ih =>
    intro acc p hmem hpw
    rw [List.foldl_cons]
    have key : p ++ t :: l' = (p ++ [t]) ++ l' := by simp
    have hmem' : ∀ x, x ∈ (if t ∈ acc then acc else acc ++ [t]) ↔
        x ∈ p ++ [t] := by
      intro x
      by_cases ht : t ∈ acc
      · rw [if_pos ht]
        rw [List.mem_append, List.mem_singleton, hmem x]
        constructor
        · exact Or.inl
        · rintro (h | rfl)
          · exact h
          · exact (hmem x).mp ht
      · rw [if_neg ht]
        simp [hmem x]
    have hpw' : (if t ∈ acc then acc else acc ++ [t]).Pairwise
        (fun a b => fidx (p ++ [t]) a < fidx (p ++ [t]) b) := by
      have base : acc.Pairwise
          (fun a b => fidx (p ++ [t]) a < fidx (p ++ [t]) b) := by
        refine hpw.imp_of_mem ?_
        intro a b ha hb hab
        rw [fidx_append_left ((hmem a).mp ha), fidx_append_left ((hmem b).mp hb)]
        exact hab
      by_cases ht : t ∈ acc
      · rw [if_pos ht]; exact base
      · rw [if_neg ht]
        rw [List.pairwise_append]
        refine ⟨base, by simp, ?_⟩
        intro a ha b hb
        rw [List.mem_singleton] at hb
        rw [hb]
        have hap : a ∈ p := (hmem a).mp ha
        have htp : t ∉ p := fun h => ht ((hmem t).mpr h)
        rw [fidx_append_left hap, fidx_append_self htp]
        exact fidx_lt_of_mem hap
    have := ih (if t ∈ acc then acc else acc ++ [t]) (p ++ [t]) hmem' hpw'
    rw [key]
    exact this

/-- The `Counter`'s key list holds exactly the distinct types present, in
strictly increasing first-occurrence order. -/
theorem counterKeys_spec (l : List ErrorType) :
    (∀ x, x ∈ counterKeys l ↔ x ∈ l) ∧
    (counterKeys l).Pairwise (fun a b => fidx l a < fidx l b) := by
  have h := counterKeys_aux l [] [] (by simp) (by simp)
  rw [counterKeys]
  constructor
  · intro x; rw [(h.1 x)]; simp
  · have := h.2
    simpa using this

/-- First-occurrence indices through the `type` projection: the index of the
first type-`t` entry of the Counter's source equals the index of the first
error of type `t`. -/
theorem fidx_map_type (errors : List ErrorEvent) (t : ErrorType) :
    fidx (errors.map (fun e => e.type)) t =
      errors.findIdx (fun e => decide (e.type = t)) := by
  induction errors with
  | nil => rfl
  | cons e rest ih =>
    rw [List.map_cons, fidx, List.findIdx_cons, List.findIdx_cons]
    rw [fidx] at ih
    cases h : decide (e.type = t) <;> simp [h, ih]

/-- The failures list of `_print_pass_fail` is empty exactly when none of
its four conditions holds. -/
theorem pass_fail_failures_eq_nil (st : AnalyzerState) :
    pass_fail_failures st = [] ↔
      ¬ (0 < st.errors.length ∨ 0 < overflow_count st ∨
          0 < underrun_count st ∨ 0 < mediacodec_count st) := by
  rw [pass_fail_failures]
  split_ifs <;> simp_all

/-- Membership characterization of the failures list: it holds one entry per
condition that fires, carrying that condition's count. -/
theorem pass_fail_failures_mem (st : AnalyzerState) (r : FailReason) :
    r ∈ pass_fail_failures st ↔
      ((0 < st.errors.length ∧
          r = FailReason.errorsDetected st.errors.length) ∨
       (0 < overflow_count st ∧
          r = FailReason.bufferOverflows (overflow_count st)) ∨
       (0 < underrun_count st ∧
          r = FailReason.bufferUnderruns (underrun_count st)) ∨
       (0 < mediacodec_count st ∧
          r = FailReason.mediaCodecErrors (mediacodec_count st))) := by
  rw [pass_fail_failures]
  split_ifs <;> simp_all

/-- The buffer-event list splits into overflows and underruns. -/
theorem events_length_split (st : AnalyzerState) :
    st.events.length = overflow_count st + underrun_count st := by
  have h := List.length_eq_countP_add_countP
    (fun e => decide (e.type = BufferEventType.overflow)) st.events
  rw [overflow_count, underrun_count]
  rw [h]
  congr 1
  apply List.countP_congr
  intro e _
  rcases e with ⟨ln, ts, ty, msg⟩
  cases ty <;> simp

/-- MediaCodec errors are a subset of all errors. -/
theorem mediacodec_le_errors (st : AnalyzerState) :
    mediacodec_count st ≤ st.errors.length :=
  List.countP_le_length _

/-- The two separately computed verdict rules agree on every state. -/
theorem verdicts_agree (st : AnalyzerState) :
    pass_fail_verdict st = summary_verdict st := by
  have hsum := events_length_split st
  have hmc := mediacodec_le_errors st
  have hov : overflow_count st ≤ st.events.length := List.countP_le_length _
  have hun : underrun_count st ≤ st.events.length := List.countP_le_length _
  rw [pass_fail_verdict, summary_verdict]
  by_cases h : pass_fail_failures st = []
  · rw [if_pos h, if_pos]
    have h' := (pass_fail_failures_eq_nil st).mp h
    push_neg at h'
    obtain ⟨h1, h2, h3, h4⟩ := h'
    exact ⟨by omega, by omega⟩
  · rw [if_neg h, if_neg]
    rintro ⟨he, hv⟩
    apply h
    rw [pass_fail_failures_eq_nil]
    push_neg
    exact ⟨by omega, by omega, by omega, by omega⟩

/-- Claim C1: the main verdict is Fail iff at least one of the four
conditions holds (errors, overflows, underruns, MediaCodec errors), the
failure-reason list holds exactly one entry for every condition that holds,
and otherwise the verdict is Pass. -/
theorem claim_C1 (lines : List (List Char)) :
    (pass_fail_verdict (parse_log lines) = Verdict.Fail ↔
      (0 < (parse_log lines).errors.length ∨
        0 < overflow_count (parse_log lines) ∨
        0 < underrun_count (parse_log lines) ∨
        0 < mediacodec_count (parse_log lines))) ∧
    (pass_fail_verdict (parse_log lines) = Verdict.Pass ↔
      ¬ (0 < (parse_log lines).errors.length ∨
        0 < overflow_count (parse_log lines) ∨
        0 < underrun_count (parse_log lines) ∨
        0 < mediacodec_count (parse_log lines))) ∧
    (∀ r, r ∈ pass_fail_failures (parse_log lines) ↔
      ((0 < (parse_log lines).errors.length ∧
          r = FailReason.errorsDetected (parse_log lines).errors.length) ∨
       (0 < overflow_count (parse_log lines) ∧
          r = FailReason.bufferOverflows (overflow_count (parse_log lines))) ∨
       (0 < underrun_count (parse_log lines) ∧
          r = FailReason.bufferUnderruns (underrun_count (parse_log lines))) ∨
       (0 < mediacodec_count (parse_log lines) ∧
          r = FailReason.mediaCodecErrors
            (mediacodec_count (parse_log lines))))) := by
  have hsplit : ∀ P : Prop,
      ((pass_fail_verdict (parse_log lines) = Verdict.Fail ↔ P) ∧
        (pass_fail_verdict (parse_log lines) = Verdict.Pass ↔ ¬ P)) →
      (pass_fail_verdict (parse_log lines) = Verdict.Fail ↔ P) ∧
        (pass_fail_verdict (parse_log lines) = Verdict.Pass ↔ ¬ P) ∧
        (∀ r, r ∈ pass_fail_failures (parse_log lines) ↔
          ((0 < (parse_log lines).errors.length ∧
              r = FailReason.errorsDetected (parse_log lines).errors.length) ∨
           (0 < overflow_count (parse_log lines) ∧
              r = FailReason.bufferOverflows (overflow_count (parse_log lines))) ∨
           (0 < underrun_count (parse_log lines) ∧
              r = FailReason.bufferUnderruns (underrun_count (parse_log lines))) ∨
           (0 < mediacodec_count (parse_log lines) ∧
              r = FailReason.mediaCodecErrors
                (mediacodec_count (parse_log lines))))) :=
    fun P hP => ⟨hP.1, hP.2, pass_fail_failures_mem (parse_log lines)⟩
  apply hsplit
  rw [pass_fail_verdict]
  by_cases hc : (0 < (parse_log lines).errors.length ∨
      0 < overflow_count (parse_log lines) ∨
      0 < underrun_count (parse_log lines) ∨
      0 < mediacodec_count (parse_log lines))
  · have hne : ¬ pass_fail_failures (parse_log lines) = [] :=
      fun he => ((pass_fail_failures_eq_nil _).mp he) hc
    rw [if_neg hne]
    simp [hc]
  · have heq : pass_fail_failures (parse_log lines) = [] :=
      (pass_fail_failures_eq_nil _).mpr hc
    rw [if_pos heq]
    simp [hc]

/-- Claim C2: the simplified saved-summary verdict always agrees with the
main verdict on a parse result, because MediaCodec errors are counted among
the errors and every buffer event is an overflow or an underrun. -/
theorem claim_C2 (lines : List (List Char)) :
    pass_fail_verdict (parse_log lines) = summary_verdict (parse_log lines) ∧
    (summary_verdict (parse_log lines) = Verdict.Pass ↔
      ((parse_log lines).errors.length = 0 ∧
        (parse_log lines).events.length = 0)) ∧
    mediacodec_count (parse_log lines) ≤ (parse_log lines).errors.length ∧
    (parse_log lines).events.length =
      overflow_count (parse_log lines) + underrun_count (parse_log lines) := by
  refine ⟨verdicts_agree _, ?_, mediacodec_le_errors _, events_length_split _⟩
  rw [summary_verdict]
  split_ifs with h
  · simp [h]
  · have h' : ¬((parse_log lines).errors = [] ∧ (parse_log lines).events = []) := by
      simpa [List.length_eq_zero] using h
    simp [h']

/-- A line containing an error keyword is non-empty. -/
theorem ne_nil_of_errCond {l : List Char} (h : errCond l = true) : l ≠ [] := by
  intro h0
  rw [h0] at h
  exact absurd h (by decide)

/-- A line containing a buffer-event keyword is non-empty. -/
theorem ne_nil_of_evtCond {l : List Char} (h : evtCond l = true) : l ≠ [] := by
  intro h0
  rw [h0] at h
  exact absurd h (by decide)

/-- Claim C3: a line classified as an Error appends exactly one Error record
whose subtype is computed by `classify_error`, and `classify_error` follows
the first-matching-rule priority MediaCodec > AudioRecord > Buffer >
Encoder > Unknown. -/
theorem claim_C3 (st : AnalyzerState) (l : List Char) (n : Nat)
    (h : errCond l = true) :
    (parse_line st l n).errors = st.errors ++ [errMk n l] ∧
    (errMk n l).type = classify_error l ∧
    (classify_error l = ErrorType.MediaCodec ↔
      containsSub kwMediacodec (lowerLine l) = true) ∧
    (classify_error l = ErrorType.AudioRecord ↔
      (containsSub kwMediacodec (lowerLine l) = false ∧
        containsSub kwAudiorecord (lowerLine l) = true)) ∧
    (classify_error l = ErrorType.Buffer ↔
      (containsSub kwMediacodec (lowerLine l) = false ∧
        containsSub kwAudiorecord (lowerLine l) = false ∧
        containsSub kwBuffer (lowerLine l) = true)) ∧
    (classify_error l = ErrorType.Encoder ↔
      (containsSub kwMediacodec (lowerLine l) = false ∧
        containsSub kwAudiorecord (lowerLine l) = false ∧
        containsSub kwBuffer (lowerLine l) = false ∧
        containsSub kwEncoder (lowerLine l) = true)) ∧
    (classify_error l = ErrorType.Unknown ↔
      (containsSub kwMediacodec (lowerLine l) = false ∧
        containsSub kwAudiorecord (lowerLine l) = false ∧
        containsSub kwBuffer (lowerLine l) = false ∧
        containsSub kwEncoder (lowerLine l) = false)) := by
  refine ⟨?_, rfl, ?_, ?_, ?_, ?_⟩
  · rw [parse_line_eq]
    simp [ne_nil_of_errCond h, h]
  all_goals
    rw [classify_error]
    split_ifs <;> simp_all

/-- Witness for C3 at the spec's scenario: a line containing "mediacodec",
"buffer" and "error" is classified MediaCodec. -/
theorem claim_C3_witness :
    errCond ("MediaCodec buffer error".toList) = true ∧
    ((parse_line initState ("MediaCodec buffer error".toList) 1).errors =
        initState.errors ++ [errMk 1 ("MediaCodec buffer error".toList)] ∧
      (errMk 1 ("MediaCodec buffer error".toList)).type =
        classify_error ("MediaCodec buffer error".toList) ∧
      (classify_error ("MediaCodec buffer error".toList) =
          ErrorType.MediaCodec ↔
        containsSub kwMediacodec
          (lowerLine ("MediaCodec buffer error".toList)) = true) ∧
      (classify_error ("MediaCodec buffer error".toList) =
          ErrorType.AudioRecord ↔
        (containsSub kwMediacodec
            (lowerLine ("MediaCodec buffer error".toList)) = false ∧
          containsSub kwAudiorecord
            (lowerLine ("MediaCodec buffer error".toList)) = true)) ∧
      (classify_error ("MediaCodec buffer error".toList) = ErrorType.Buffer ↔
        (containsSub kwMediacodec
            (lowerLine ("MediaCodec buffer error".toList)) = false ∧
          containsSub kwAudiorecord
            (lowerLine ("MediaCodec buffer error".toList)) = false ∧
          containsSub kwBuffer
            (lowerLine ("MediaCodec buffer error".toList)) = true)) ∧
      (classify_error ("MediaCodec buffer error".toList) = ErrorType.Encoder ↔
        (containsSub kwMediacodec
            (lowerLine ("MediaCodec buffer error".toList)) = false ∧
          containsSub kwAudiorecord
            (lowerLine ("MediaCodec buffer error".toList)) = false ∧
          containsSub kwBuffer
            (lowerLine ("MediaCodec buffer error".toList)) = false ∧
          containsSub kwEncoder
            (lowerLine ("MediaCodec buffer error".toList)) = true)) ∧
      (classify_error ("MediaCodec buffer error".toList) = ErrorType.Unknown ↔
        (containsSub kwMediacodec
            (lowerLine ("MediaCodec buffer error".toList)) = false ∧
          containsSub kwAudiorecord
            (lowerLine ("MediaCodec buffer error".toList)) = false ∧
          containsSub kwBuffer
            (lowerLine ("MediaCodec buffer error".toList)) = false ∧
          containsSub kwEncoder
            (lowerLine ("MediaCodec buffer error".toList)) = false))) :=
  ⟨by decide, claim_C3 initState ("MediaCodec buffer error".toList) 1 (by decide)⟩

/-- Claim C4: a line containing "overflow" or "underrun" appends exactly one
BufferEvent, whose subtype is overflow when "overflow" is present and
underrun otherwise; in particular overflow wins when both are present. -/
theorem claim_C4 (st : AnalyzerState) (l : List Char) (n : Nat)
    (h : evtCond l = true) :
    (parse_line st l n).events = st.events ++
      [{ line := n, timestamp := findTimestamp l,
         type := if containsSub kwOverflow (lowerLine l) then
             BufferEventType.overflow
           else BufferEventType.underrun,
         message := l }] ∧
    (containsSub kwOverflow (lowerLine l) = true →
      (evtMk n l).type = BufferEventType.overflow) ∧
    (containsSub kwOverflow (lowerLine l) = false →
      (evtMk n l).type = BufferEventType.underrun) := by
  refine ⟨?_, ?_, ?_⟩
  · rw [parse_line_eq]
    simp only [ne_nil_of_evtCond h, h, and_self, ne_eq, not_false_iff,
      true_and, if_pos]
    rfl
  · intro hov
    rw [evtMk]
    simp [hov]
  · intro hov
    rw [evtMk]
    simp [hov]

/-- Witness for C4 at a line containing both "overflow" and "underrun": the
recorded subtype is overflow. -/
theorem claim_C4_witness :
    evtCond ("buffer overflow and underrun detected".toList) = true ∧
    ((parse_line initState ("buffer overflow and underrun detected".toList)
        3).events = initState.events ++
        [{ line := 3,
           timestamp :=
             findTimestamp ("buffer overflow and underrun detected".toList),
           type := if containsSub kwOverflow
               (lowerLine ("buffer overflow and underrun detected".toList))
             then BufferEventType.overflow
             else BufferEventType.underrun,
           message := "buffer overflow and underrun detected".toList }] ∧
      (containsSub kwOverflow
          (lowerLine ("buffer overflow and underrun detected".toList)) =
          true →
        (evtMk 3 ("buffer overflow and underrun detected".toList)).type =
          BufferEventType.overflow) ∧
      (containsSub kwOverflow
          (lowerLine ("buffer overflow and underrun detected".toList)) =
          false →
        (evtMk 3 ("buffer overflow and underrun detected".toList)).type =
          BufferEventType.underrun)) :=
  ⟨by decide,
    claim_C4 initState ("buffer overflow and underrun detected".toList) 3
      (by decide)⟩

/-- The single input line of the spec's C8 scenario. -/
def c8_line : List Char :=
  "12:34:56.789 ERROR: AudioRecord read failed, buffer overflow detected".toList

/-- The parse result of the C8 scenario. -/
def c8_st : AnalyzerState := parse_log [c8_line]

/-- Claim C8: the scenario line yields one AudioRecord error with timestamp
12:34:56.789, one overflow BufferEvent, error count 1, overflow count 1, a
Fail verdict, and both expected failure reasons. -/
theorem claim_C8 :
    c8_st.errors =
      [{ line := 1, timestamp := some ("12:34:56.789".toList),
         message := c8_line, type := ErrorType.AudioRecord }] ∧
    c8_st.events =
      [{ line := 1, timestamp := some ("12:34:56.789".toList),
         type := BufferEventType.overflow, message := c8_line }] ∧
    c8_st.errors.length = 1 ∧
    overflow_count c8_st = 1 ∧
    pass_fail_verdict c8_st = Verdict.Fail ∧
    FailReason.errorsDetected 1 ∈ pass_fail_failures c8_st ∧
    FailReason.bufferOverflows 1 ∈ pass_fail_failures c8_st := by
  decide

/-- The single input line of the C10 scenario: an error with no critical
subtype and no buffer keyword. -/
def c10_st : AnalyzerState := parse_log ["an error occurred".toList]

/-- Claim C10: a Fail verdict does not imply a flagged critical issue — on
this input the critical-issues list is empty (its "no critical issues"
branch), the error is of subtype Unknown, and the verdict is Fail. -/
theorem claim_C10 :
    critical_issues c10_st = [] ∧
    pass_fail_verdict c10_st = Verdict.Fail ∧
    c10_st.errors.length = 1 ∧
    c10_st.errors.countP (fun e => decide (e.type = ErrorType.Unknown)) = 1 := by
  decide

/-- Claim C9: when no stripped line satisfies any category condition, the
parse result is the empty state, every summary count is zero, the
critical-issues list is empty, and both verdicts are Pass. -/
theorem claim_C9 (lines : List (List Char))
    (h : ∀ l ∈ lines, errCond (strip l) = false ∧ evtCond (strip l) = false ∧
      warnCond (strip l) = false ∧ healthCond (strip l) = false ∧
      memCond (strip l) = false) :
    parse_log lines = initState ∧
    (parse_log lines).errors.length = 0 ∧
    (parse_log lines).warnings.length = 0 ∧
    (parse_log lines).events.length = 0 ∧
    overflow_count (parse_log lines) = 0 ∧
    underrun_count (parse_log lines) = 0 ∧
    (parse_log lines).buffer_stats.length = 0 ∧
    (parse_log lines).memory_readings.length = 0 ∧
    critical_issues (parse_log lines) = [] ∧
    pass_fail_verdict (parse_log lines) = Verdict.Pass ∧
    summary_verdict (parse_log lines) = Verdict.Pass := by
  have h0 : parse_log lines = initState := by
    rw [parse_log_eq]
    rw [collectC_nil (fun l hl => (h l hl).1),
      collectC_nil (fun l hl => (h l hl).2.1),
      collectC_nil (fun l hl => (h l hl).2.2.1),
      collectC_nil (fun l hl => (h l hl).2.2.2.1),
      collectC_nil (fun l hl => (h l hl).2.2.2.2)]
    rfl
  rw [h0]
  refine ⟨rfl, rfl, rfl, rfl, rfl, rfl, rfl, rfl, rfl, rfl, rfl⟩

/-- Witness for C9 on a concrete two-line file (one ordinary line, one
whitespace-only line) matching no category keyword. -/
theorem claim_C9_witness :
    (∀ l ∈ [("12:00:00.000 all good".toList : List Char), "   ".toList],
      errCond (strip l) = false ∧ evtCond (strip l) = false ∧
      warnCond (strip l) = false ∧ healthCond (strip l) = false ∧
      memCond (strip l) = false) ∧
    (parse_log [("12:00:00.000 all good".toList : List Char), "   ".toList] =
        initState ∧
      (parse_log [("12:00:00.000 all good".toList : List Char),
          "   ".toList]).errors.length = 0 ∧
      (parse_log [("12:00:00.000 all good".toList : List Char),
          "   ".toList]).warnings.length = 0 ∧
      (parse_log [("12:00:00.000 all good".toList : List Char),
          "   ".toList]).events.length = 0 ∧
      overflow_count (parse_log [("12:00:00.000 all good".toList : List Char),
          "   ".toList]) = 0 ∧
      underrun_count (parse_log [("12:00:00.000 all good".toList : List Char),
          "   ".toList]) = 0 ∧
      (parse_log [("12:00:00.000 all good".toList : List Char),
          "   ".toList]).buffer_stats.length = 0 ∧
      (parse_log [("12:00:00.000 all good".toList : List Char),
          "   ".toList]).memory_readings.length = 0 ∧
      critical_issues (parse_log
          [("12:00:00.000 all good".toList : List Char), "   ".toList]) = [] ∧
      pass_fail_verdict (parse_log
          [("12:00:00.000 all good".toList : List Char), "   ".toList]) =
        Verdict.Pass ∧
      summary_verdict (parse_log
          [("12:00:00.000 all good".toList : List Char), "   ".toList]) =
        Verdict.Pass) :=
  ⟨by decide,
    claim_C9 [("12:00:00.000 all good".toList : List Char), "   ".toList]
      (by decide)⟩

/-- Per-category consequence of the collect characterization used by C5:
strict line-number increase and agreement with the 1-based file position. -/
theorem collect_line_facts {ε : Type} (lineOf : ε → Nat)
    (msgOf : ε → List Char) {cond : List Char → Bool}
    {mk : Nat → List Char → ε} (hline : ∀ n l, lineOf (mk n l) = n)
    (hmsg : ∀ n l, msgOf (mk n l) = l) (lines : List (List Char)) :
    (collectC cond mk 1 lines).Pairwise (fun a b => lineOf a < lineOf b) ∧
    ∀ e ∈ collectC cond mk 1 lines, 1 ≤ lineOf e ∧
      ∃ raw, lines.get? (lineOf e - 1) = some raw ∧
        msgOf e = strip raw ∧ msgOf e ≠ [] := by
  obtain ⟨hp, hb⟩ := collectC_pairwise lineOf hline 1 lines
  refine ⟨hp, ?_⟩
  intro e he
  obtain ⟨i, hi, he1, he2, _⟩ := collectC_mem he
  have hl : lineOf e = 1 + i := by rw [he1, hline]
  have hm : msgOf e = strip (lines.get ⟨i, hi⟩) := by rw [he1, hmsg]
  have hidx : lineOf e - 1 = i := by omega
  refine ⟨by omega, lines.get ⟨i, hi⟩, ?_, hm, ?_⟩
  · rw [hidx]
    exact List.get?_eq_get hi
  · rw [hm]
    exact he2

/-- Claim C5: in every category list of a parse result, recorded line
numbers are strictly increasing, each equals the 1-based position of the
originating raw line (blank lines counted), the stored message is the
stripped text of that very line, and no empty-after-strip line is ever
recorded. -/
theorem claim_C5 (lines : List (List Char)) :
    ((parse_log lines).errors.Pairwise
        (fun (a b : ErrorEvent) => a.line < b.line) ∧
      ∀ e ∈ (parse_log lines).errors, 1 ≤ e.line ∧
        ∃ raw, lines.get? (e.line - 1) = some raw ∧
          e.message = strip raw ∧ e.message ≠ []) ∧
    ((parse_log lines).events.Pairwise
        (fun (a b : BufferEvent) => a.line < b.line) ∧
      ∀ e ∈ (parse_log lines).events, 1 ≤ e.line ∧
        ∃ raw, lines.get? (e.line - 1) = some raw ∧
          e.message = strip raw ∧ e.message ≠ []) ∧
    ((parse_log lines).warnings.Pairwise
        (fun (a b : SimpleEvent) => a.line < b.line) ∧
      ∀ e ∈ (parse_log lines).warnings, 1 ≤ e.line ∧
        ∃ raw, lines.get? (e.line - 1) = some raw ∧
          e.message = strip raw ∧ e.message ≠ []) ∧
    ((parse_log lines).buffer_stats.Pairwise
        (fun (a b : SimpleEvent) => a.line < b.line) ∧
      ∀ e ∈ (parse_log lines).buffer_stats, 1 ≤ e.line ∧
        ∃ raw, lines.get? (e.line - 1) = some raw ∧
          e.message = strip raw ∧ e.message ≠ []) ∧
    ((parse_log lines).memory_readings.Pairwise
        (fun (a b : SimpleEvent) => a.line < b.line) ∧
      ∀ e ∈ (parse_log lines).memory_readings, 1 ≤ e.line ∧
        ∃ raw, lines.get? (e.line - 1) = some raw ∧
          e.message = strip raw ∧ e.message ≠ []) := by
  rw [parse_log_eq]
  exact ⟨collect_line_facts (fun (e : ErrorEvent) => e.line)
      (fun (e : ErrorEvent) => e.message)
      (fun _ _ => rfl) (fun _ _ => rfl) lines,
    collect_line_facts (fun (e : BufferEvent) => e.line)
      (fun (e : BufferEvent) => e.message)
      (fun _ _ => rfl) (fun _ _ => rfl) lines,
    collect_line_facts (fun (e : SimpleEvent) => e.line)
      (fun (e : SimpleEvent) => e.message)
      (fun _ _ => rfl) (fun _ _ => rfl) lines,
    collect_line_facts (fun (e : SimpleEvent) => e.line)
      (fun (e : SimpleEvent) => e.message)
      (fun _ _ => rfl) (fun _ _ => rfl) lines,
    collect_line_facts (fun (e : SimpleEvent) => e.line)
      (fun (e : SimpleEvent) => e.message)
      (fun _ _ => rfl) (fun _ _ => rfl) lines⟩


/-- The timeline comparison function is transitive. -/
theorem tlLE_trans : ∀ a b c : TimelineEntry,
    (fun a b : TimelineEntry => decide (a.line ≤ b.line)) a b = true →
    (fun a b : TimelineEntry => decide (a.line ≤ b.line)) b c = true →
    (fun a b : TimelineEntry => decide (a.line ≤ b.line)) a c = true := by
  intro a b c
  simp only [decide_eq_true_eq]
  omega

/-- The timeline comparison function is total. -/
theorem tlLE_total : ∀ a b : TimelineEntry,
    ((fun a b : TimelineEntry => decide (a.line ≤ b.line)) a b ||
      (fun a b : TimelineEntry => decide (a.line ≤ b.line)) b a) = true := by
  intro a b
  simp only [Bool.or_eq_true, decide_eq_true_eq]
  omega

/-- A tag cannot be both ERROR and BUFFER. -/
theorem tag_not_both {t : TimelineTag} (h1 : t.isERROR = true)
    (h2 : t.isBUFFER = true) : False := by
  cases t <;> simp [TimelineTag.isERROR, TimelineTag.isBUFFER] at h1 h2

/-- Error line numbers of a parse result are strictly increasing. -/
theorem parse_errors_lt (lines : List (List Char)) :
    (parse_log lines).errors.Pairwise
      (fun (a b : ErrorEvent) => a.line < b.line) := by
  rw [parse_log_eq]
  exact (collectC_pairwise (fun (e : ErrorEvent) => e.line)
    (fun _ _ => rfl) 1 lines).1

/-- Buffer-event line numbers of a parse result are strictly increasing. -/
theorem parse_events_lt (lines : List (List Char)) :
    (parse_log lines).events.Pairwise
      (fun (a b : BufferEvent) => a.line < b.line) := by
  rw [parse_log_eq]
  exact (collectC_pairwise (fun (e : BufferEvent) => e.line)
    (fun _ _ => rfl) 1 lines).1

/-- Every entry of the pre-sort timeline list comes from the error segment
(tagged ERROR) or from the buffer-event segment (tagged BUFFER). -/
theorem timeline_pre_mem_tag (st : AnalyzerState) {x : TimelineEntry}
    (hx : x ∈ timeline_pre st) :
    (x ∈ (st.errors.take 10).map errEntry ∧ x.tag.isERROR = true) ∨
    (x ∈ (st.events.take 10).map evtEntry ∧ x.tag.isBUFFER = true) := by
  rcases List.mem_append.mp hx with h | h
  · left
    refine ⟨h, ?_⟩
    obtain ⟨e, _, he⟩ := List.mem_map.mp h
    rw [← he]
    rfl
  · right
    refine ⟨h, ?_⟩
    obtain ⟨e, _, he⟩ := List.mem_map.mp h
    rw [← he]
    rfl

/-- When the per-category line numbers strictly increase, the pre-sort
timeline list has no duplicates. -/
theorem timeline_pre_nodup (st : AnalyzerState)
    (he : st.errors.Pairwise (fun a b => a.line < b.line))
    (hv : st.events.Pairwise (fun a b => a.line < b.line)) :
    (timeline_pre st).Nodup := by
  rw [timeline_pre, List.nodup_append]
  refine ⟨?_, ?_, ?_⟩
  · apply List.Nodup.map
    · intro a b hab
      rcases a with ⟨la, ta, ma, tya⟩
      rcases b with ⟨lb, tb, mb, tyb⟩
      simp only [errEntry, TimelineEntry.mk.injEq, TimelineTag.ERROR.injEq]
        at hab
      simp_all
    · exact ((he.sublist (List.take_sublist 10 _)).imp
        (fun h heq => by rw [heq] at h; exact Nat.lt_irrefl _ h))
  · apply List.Nodup.map
    · intro a b hab
      rcases a with ⟨la, ta, tya, ma⟩
      rcases b with ⟨lb, tb, tyb, mb⟩
      simp only [evtEntry, TimelineEntry.mk.injEq, TimelineTag.BUFFER.injEq]
        at hab
      simp_all
    · exact ((hv.sublist (List.take_sublist 10 _)).imp
        (fun h heq => by rw [heq] at h; exact Nat.lt_irrefl _ h))
  · intro x hx hy
    obtain ⟨e, _, hex⟩ := List.mem_map.mp hx
    obtain ⟨v, _, hvx⟩ := List.mem_map.mp hy
    have htag : TimelineTag.ERROR e.type = TimelineTag.BUFFER v.type :=
      congrArg TimelineEntry.tag (hex.trans hvx.symm)
    exact TimelineTag.noConfusion htag

/-- Core of claim C6: the sorted timeline is a permutation of the merged
takes, is sorted by line number, and on equal line numbers an ERROR entry
never follows a BUFFER entry. -/
theorem timeline_spec (st : AnalyzerState)
    (he : st.errors.Pairwise (fun a b => a.line < b.line))
    (hv : st.events.Pairwise (fun a b => a.line < b.line)) :
    (timeline st).Perm (timeline_pre st) ∧
    (timeline st).Pairwise
      (fun a b => a.line ≤ b.line ∧
        (a.line = b.line →
          ¬(a.tag.isBUFFER = true ∧ b.tag.isERROR = true))) := by
  have hnd : (timeline_pre st).Nodup := timeline_pre_nodup st he hv
  have hndT : (timeline st).Nodup :=
    hnd.perm (List.mergeSort_perm (timeline_pre st) _).symm
  have hsorted := List.sorted_mergeSort tlLE_trans tlLE_total (timeline_pre st)
  refine ⟨List.mergeSort_perm _ _, ?_⟩
  rw [List.pairwise_iff_forall_sublist]
  intro a b hab
  constructor
  · have := List.pairwise_iff_forall_sublist.mp hsorted hab
    simpa using this
  · rintro heq ⟨haB, hbE⟩
    have ha_pre : a ∈ timeline_pre st :=
      List.mem_mergeSort.mp (hab.subset (by simp))
    have hb_pre : b ∈ timeline_pre st :=
      List.mem_mergeSort.mp (hab.subset (by simp))
    have hbErr : b ∈ (st.errors.take 10).map errEntry := by
      rcases timeline_pre_mem_tag st hb_pre with ⟨h, _⟩ | ⟨_, h⟩
      · exact h
      · exact (tag_not_both hbE h).elim
    have haEvt : a ∈ (st.events.take 10).map evtEntry := by
      rcases timeline_pre_mem_tag st ha_pre with ⟨_, h⟩ | ⟨h, _⟩
      · exact (tag_not_both h haB).elim
      · exact h
    have hsub : [b, a].Sublist (timeline_pre st) := by
      rw [timeline_pre]
      exact List.Sublist.append (List.singleton_sublist.mpr hbErr)
        (List.singleton_sublist.mpr haEvt)
    have hle : (fun a b : TimelineEntry => decide (a.line ≤ b.line)) b a =
        true := by
      simp only [decide_eq_true_eq]
      omega
    have hba : [b, a].Sublist (timeline st) :=
      List.pair_sublist_mergeSort tlLE_trans tlLE_total hle hsub
    exact not_pair_sublist_both hndT hab hba

/-- Claim C6: the timeline merges the first 10 errors and first 10 buffer
events, sorts them by line number with a stable sort (so an ERROR entry
precedes a BUFFER entry with the same line number), prints at most the
first 15 entries, and reports the count of the remainder only when more
than 15 exist. -/
theorem claim_C6 (lines : List (List Char)) :
    (timeline (parse_log lines)).Perm (timeline_pre (parse_log lines)) ∧
    (timeline (parse_log lines)).Pairwise
      (fun a b => a.line ≤ b.line ∧
        (a.line = b.line →
          ¬(a.tag.isBUFFER = true ∧ b.tag.isERROR = true))) ∧
    timeline_printed (parse_log lines) =
      (timeline (parse_log lines)).take 15 ∧
    ((timeline (parse_log lines)).length ≤ 15 →
      timeline_more (parse_log lines) = none) ∧
    (15 < (timeline (parse_log lines)).length →
      timeline_more (parse_log lines) =
        some ((timeline (parse_log lines)).length - 15)) := by
  obtain ⟨hperm, hpw⟩ :=
    timeline_spec (parse_log lines) (parse_errors_lt lines)
      (parse_events_lt lines)
  refine ⟨hperm, hpw, rfl, ?_, ?_⟩
  · intro h
    rw [timeline_more, if_neg (by omega)]
  · intro h
    rw [timeline_more, if_pos h]

/-- The most-common comparison function is transitive. -/
theorem mcLE_trans : ∀ a b c : ErrorType × Nat,
    (fun a b : ErrorType × Nat => decide (b.2 ≤ a.2)) a b = true →
    (fun a b : ErrorType × Nat => decide (b.2 ≤ a.2)) b c = true →
    (fun a b : ErrorType × Nat => decide (b.2 ≤ a.2)) a c = true := by
  intro a b c
  simp only [decide_eq_true_eq]
  omega

/-- The most-common comparison function is total. -/
theorem mcLE_total : ∀ a b : ErrorType × Nat,
    ((fun a b : ErrorType × Nat => decide (b.2 ≤ a.2)) a b ||
      (fun a b : ErrorType × Nat => decide (b.2 ≤ a.2)) b a) = true := by
  intro a b
  simp only [Bool.or_eq_true, decide_eq_true_eq]
  omega

/-- The Counter items are ordered by strictly increasing first-occurrence
index of their key. -/
theorem counter_items_pairwise (errors : List ErrorEvent) :
    (counter_items errors).Pairwise
      (fun x y => fidx (errors.map (fun e => e.type)) x.1 <
        fidx (errors.map (fun e => e.type)) y.1) := by
  rw [counter_items, List.pairwise_map]
  exact (counterKeys_spec (errors.map (fun e => e.type))).2

/-- The Counter items list has no duplicates. -/
theorem counter_items_nodup (errors : List ErrorEvent) :
    (counter_items errors).Nodup :=
  (counter_items_pairwise errors).imp
    (fun h heq => by rw [heq] at h; exact Nat.lt_irrefl _ h)

/-- Every Counter item carries the count of its key, and its key occurs
among the errors. -/
theorem counter_items_mem {errors : List ErrorEvent} {x : ErrorType × Nat}
    (hx : x ∈ counter_items errors) :
    x.2 = errors.countP (fun e => decide (e.type = x.1)) ∧
    ∃ e ∈ errors, e.type = x.1 := by
  rw [counter_items] at hx
  obtain ⟨t, ht, hxt⟩ := List.mem_map.mp hx
  have h1 : t ∈ errors.map (fun e => e.type) :=
    ((counterKeys_spec (errors.map (fun e => e.type))).1 t).mp ht
  obtain ⟨e, he, het⟩ := List.mem_map.mp h1
  rw [← hxt]
  exact ⟨rfl, e, he, het⟩

/-- Stability of `most_common`: the sorted items are in descending count
order, and equal counts keep strictly increasing first-occurrence order. -/
theorem most_common_pairwise (errors : List ErrorEvent) :
    (most_common errors).Pairwise
      (fun x y => y.2 < x.2 ∨
        (x.2 = y.2 ∧ fidx (errors.map (fun e => e.type)) x.1 <
          fidx (errors.map (fun e => e.type)) y.1)) := by
  have hnd : (counter_items errors).Nodup := counter_items_nodup errors
  have hndT : (most_common errors).Nodup :=
    hnd.perm (List.mergeSort_perm (counter_items errors) _).symm
  have hsorted :=
    List.sorted_mergeSort mcLE_trans mcLE_total (counter_items errors)
  have hpw := counter_items_pairwise errors
  rw [List.pairwise_iff_forall_sublist]
  intro p q hpq
  have hdesc : q.2 ≤ p.2 := by
    have := List.pairwise_iff_forall_sublist.mp hsorted hpq
    simpa using this
  by_cases hlt : q.2 < p.2
  · exact Or.inl hlt
  · have heq : p.2 = q.2 := by omega
    refine Or.inr ⟨heq, ?_⟩
    have hne : p ≠ q := by
      have hnd' : (most_common errors).Pairwise (fun a b => a ≠ b) := hndT
      exact List.pairwise_iff_forall_sublist.mp hnd' hpq
    have hp_mem : p ∈ counter_items errors :=
      List.mem_mergeSort.mp (hpq.subset (by simp))
    have hq_mem : q ∈ counter_items errors :=
      List.mem_mergeSort.mp (hpq.subset (by simp))
    have hsym : Symmetric (fun x y : ErrorType × Nat =>
        fidx (errors.map (fun e => e.type)) x.1 <
          fidx (errors.map (fun e => e.type)) y.1 ∨
        fidx (errors.map (fun e => e.type)) y.1 <
          fidx (errors.map (fun e => e.type)) x.1) :=
      fun x y h => h.symm
    have htri := (hpw.imp (fun h => Or.inl h)).forall hsym hp_mem hq_mem hne
    rcases htri with h | h
    · exact h
    · exfalso
      have hqp_items : [q, p].Sublist (counter_items errors) :=
        pair_sublist_of_pairwise hpw hp_mem hq_mem h (by omega)
      have hle : (fun a b : ErrorType × Nat => decide (b.2 ≤ a.2)) q p =
          true := by
        simp only [decide_eq_true_eq]
        omega
      have hqp : [q, p].Sublist (most_common errors) :=
        List.pair_sublist_mergeSort mcLE_trans mcLE_total hle hqp_items
      exact not_pair_sublist_both hndT hpq hqp

/-- A successful `find?` returns the first element satisfying the
predicate: everything at a smaller index fails it. -/
theorem find?_first {α : Type} {p : α → Bool} {l : List α} {a : α}
    (h : l.find? p = some a) :
    ∃ i, ∃ hi : i < l.length, l.get ⟨i, hi⟩ = a ∧ p a = true ∧
      ∀ j (hj : j < l.length), j < i → p (l.get ⟨j, hj⟩) = false := by
  induction l with
  | nil => simp at h
  | cons x t ih =>
    cases hpx : p x with
    | true =>
      rw [List.find?_cons_of_pos _ hpx] at h
      have hax : a = x := by
        injection h with h'
        exact h'.symm
      refine ⟨0, by simp, by simp [hax], by rw [hax]; exact hpx, ?_⟩
      intro j hj hj0
      omega
    | false =>
      rw [List.find?_cons_of_neg _ (by simp [hpx])] at h
      obtain ⟨i, hi, h1, h2, h3⟩ := ih h
      refine ⟨i + 1, by simpa using hi, by simpa using h1, h2, ?_⟩
      intro j hj hji
      cases j with
      | zero => simpa using hpx
      | succ j' =>
        have hj' : j' < t.length := by simpa using hj
        have := h3 j' hj' (by omega)
        simpa using this

/-- Claim C7: the error breakdown lists subtypes in descending count order,
ties broken by the order of first encounter, and each entry carries its
subtype's count and the message of its first occurrence in file order. -/
theorem claim_C7 (errors : List ErrorEvent) :
    (error_breakdown errors).Pairwise
      (fun (x y : ErrorType × Nat × List Char) => y.2.1 < x.2.1 ∨
        (x.2.1 = y.2.1 ∧
          errors.findIdx (fun e => decide (e.type = x.1)) <
            errors.findIdx (fun e => decide (e.type = y.1)))) ∧
    ∀ x ∈ error_breakdown errors,
      x.2.1 = errors.countP (fun e => decide (e.type = x.1)) ∧
      ∃ i, ∃ hi : i < errors.length,
        (errors.get ⟨i, hi⟩).type = x.1 ∧
        x.2.2 = (errors.get ⟨i, hi⟩).message ∧
        ∀ j (hj : j < errors.length), j < i →
          (errors.get ⟨j, hj⟩).type ≠ x.1 := by
  constructor
  · rw [error_breakdown]
    apply List.Pairwise.map _ _ (most_common_pairwise errors)
    intro p q hpq
    rcases hpq with h | ⟨h1, h2⟩
    · exact Or.inl h
    · refine Or.inr ⟨h1, ?_⟩
      rw [← fidx_map_type, ← fidx_map_type]
      exact h2
  · intro x hx
    rw [error_breakdown] at hx
    obtain ⟨p, hp, hpx⟩ := List.mem_map.mp hx
    have hp_items : p ∈ counter_items errors := List.mem_mergeSort.mp hp
    obtain ⟨hcount, e0, he0, he0t⟩ := counter_items_mem hp_items
    have hx1 : x.1 = p.1 := by rw [← hpx]
    have hx21 : x.2.1 = p.2 := by rw [← hpx]
    have hx22 : x.2.2 = first_occurrence_message errors p.1 := by rw [← hpx]
    refine ⟨by rw [hx21, hx1]; exact hcount, ?_⟩
    have hfind : errors.find? (fun e => decide (e.type = p.1)) ≠ none := by
      intro hnone
      rw [List.find?_eq_none] at hnone
      exact absurd (by simpa using he0t) (by simpa using hnone e0 he0)
    obtain ⟨ef, hef⟩ := Option.ne_none_iff_exists.mp hfind
    obtain ⟨i, hi, h1, h2, h3⟩ := find?_first hef.symm
    refine ⟨i, hi, ?_, ?_, ?_⟩
    · rw [hx1, h1]
      simpa using h2
    · rw [hx22, first_occurrence_message, hef.symm, h1]
    · intro j hj hji
      have := h3 j hj hji
      rw [hx1]
      simpa using this
